import Mathlib

/-!
Shallow embedding of the EDA helper module (src/EDA.py) and proofs of the
specified properties.

A pandas DataFrame is modelled as an ordered list of named columns.  Each
column carries a dtype tag and a list of cell values; a cell is a number
(modelled as a rational, standing for a clean float), a string, or a
missing value (NaN/None).  The dtype predicates of the external
tabular-data library are modelled as an enumeration: numeric and object
dtypes are the two tested by the code, and boolean/datetime dtypes satisfy
neither predicate (this mirrors the behaviour described in the spec for
columns matching neither typing rule).

Numeric computations (quartiles, fences, counts) are over ℚ, which is
exact for the linear-interpolation percentile formula used by
numpy.percentile on clean (NaN-free, nonempty) data; theorems about the
outlier computation therefore hypothesise clean nonempty numeric columns,
where the embedding coincides with the floating-point code.
-/

namespace EDA

/-- Dtype tag of a column, modelling the dtype predicates of the external
tabular-data library (pandas). -/
inductive Dtype where
  | numeric
  | object
  | boolean
  | datetime

deriving instance DecidableEq for Dtype

/-- A cell value: a number, a string, or a missing value (NaN/None). -/
inductive Value where
  | num (q : ℚ)
  | str (s : String)
  | na

deriving instance DecidableEq for Value

/-- A named column of a DataFrame. -/
structure Column where
  name : String
  dtype : Dtype
  values : List Value

deriving instance DecidableEq for Column

/-- The numeric-dtype test of the tabular-data library. -/
def is_numeric_dtype : Dtype → Bool
  | .numeric => true
  | _ => false

/-- The object-dtype (string/categorical) test of the tabular-data library. -/
def is_object_dtype : Dtype → Bool
  | .object => true
  | _ => false

/-- Missingness test on one cell (pandas isna). -/
def isNA : Value → Bool
  | .na => true
  | _ => false

/-- Number of rows of the DataFrame (len(df)); rows are aligned across
columns, which theorems state as a uniformity hypothesis where needed. -/
def numRows : List Column → ℕ
  | [] => 0
  | c :: _ => c.values.length

/-- get_cat_num_df: one pass over the columns, appending the name to the
numeric list when the numeric-dtype test holds and to the categorical list
when the object-dtype test holds. -/
def get_cat_num_df (df : List Column) : List String × List String :=
  match df with
  | [] => ([], [])
  | c :: rest =>
    let p := get_cat_num_df rest
    (if is_numeric_dtype c.dtype then c.name :: p.1 else p.1,
     if is_object_dtype c.dtype then c.name :: p.2 else p.2)

/-- One row of the null report returned by get_null_df. -/
structure NullRow where
  column : String
  type : String
  totalNaN : ℕ
  pct : ℚ

deriving instance DecidableEq for NullRow

/-- Number of missing values in a column: the code counts the rows of
df[df[col].isna() == True][col]. -/
def countNA (c : Column) : ℕ := c.values.countP isNA

/-- The null-report row built for one column inside the get_null_df loop. -/
def nullRow (df : List Column) (c : Column) : NullRow :=
  { column := c.name
    type := if is_numeric_dtype c.dtype then "Numerical" else "Categorical"
    totalNaN := countNA c
    pct := ((countNA c : ℚ) / (numRows df : ℚ)) * 100 }

/-- get_null_df: one report row, in column order, for each column having at
least one missing value (df.columns[df.isna().any()]). -/
def get_null_df (df : List Column) : List NullRow :=
  (df.filter (fun c => c.values.any isNA)).map (nullRow df)

/-- The numbers held by a column, in order (the numeric cells of df[col]). -/
def numValues (c : Column) : List ℚ :=
  c.values.filterMap (fun v => match v with | .num q => some q | _ => none)

/-- Linear interpolation at fractional index h into the sorted data, the
core of the numpy linear percentile method: with i = floor h, the value is
s[i] + (h - i) * (s[i+1] - s[i]); when i + 1 is out of range the fraction
h - i is 0 and the value degenerates to s[i]. -/
def interpAt (s : List ℚ) (h : ℚ) : ℚ :=
  s.getD ⌊h⌋₊ 0 + (h - (⌊h⌋₊ : ℚ)) * (s.getD (⌊h⌋₊ + 1) (s.getD ⌊h⌋₊ 0) - s.getD ⌊h⌋₊ 0)

/-- numpy.percentile with the default linear interpolation: sort the data
and interpolate at index (n - 1) * p / 100. -/
def percentile (xs : List ℚ) (p : ℚ) : ℚ :=
  if xs = [] then 0
  else interpAt (xs.insertionSort (· ≤ ·)) (((xs.length - 1 : ℕ) : ℚ) * p / 100)

/-- First quartile of a column (np.percentile(df[col], 25)). -/
def first_quartile (c : Column) : ℚ := percentile (numValues c) 25

/-- Third quartile of a column (np.percentile(df[col], 75)). -/
def third_quartile (c : Column) : ℚ := percentile (numValues c) 75

/-- Interquartile range: third_quartile - first_quartile. -/
def iqr (c : Column) : ℚ := third_quartile c - first_quartile c

/-- Cutoff: iqr * 1.5. -/
def cutoff (c : Column) : ℚ := iqr c * 1.5

/-- Lower fence: first_quartile - cutoff. -/
def lowerFence (c : Column) : ℚ := first_quartile c - cutoff c

/-- Upper fence: third_quartile + cutoff. -/
def upperFence (c : Column) : ℚ := third_quartile c + cutoff c

/-- Rows of df whose value in the column is strictly above the upper fence
(df[df[col] > upper].shape[0]); a missing cell compares false. -/
def upperCount (c : Column) : ℕ :=
  (numValues c).countP (fun q => decide (upperFence c < q))

/-- Rows of df whose value in the column is strictly below the lower fence
(df[df[col] < lower].shape[0]); a missing cell compares false. -/
def lowerCount (c : Column) : ℕ :=
  (numValues c).countP (fun q => decide (q < lowerFence c))

/-- total = lower_outliers.shape[0] + upper_outliers.shape[0]. -/
def totalOut (c : Column) : ℕ := lowerCount c + upperCount c

/-- One row of the outlier report returned by get_outliers. -/
structure OutlierRow where
  feature : String
  totalOutliers : ℕ
  upperLimit : ℚ
  lowerLimit : ℚ

deriving instance DecidableEq for OutlierRow

/-- The body of the get_outliers loop for one numeric column: emit a row
exactly when total != 0 and (upper != 0 and lower != 0). -/
def outlierRow (c : Column) : Option OutlierRow :=
  if totalOut c ≠ 0 ∧ upperFence c ≠ 0 ∧ lowerFence c ≠ 0 then
    some { feature := c.name
           totalOutliers := totalOut c
           upperLimit := upperFence c
           lowerLimit := lowerFence c }
  else none

/-- Column lookup df[colName]: the first column with that name. -/
def getCol (df : List Column) (colName : String) : Option Column :=
  df.find? (fun c => c.name == colName)

/-- get_outliers: iterate over the numeric column names from
get_cat_num_df, look the column up in the DataFrame, and collect the rows
the loop body emits. -/
def get_outliers (df : List Column) : List OutlierRow :=
  (get_cat_num_df df).1.filterMap (fun colName => (getCol df colName).bind outlierRow)

/-- Pure skeleton of plot_eda: df.drop(columns=target) raises a
column-not-found error when the target is absent; otherwise the grid shape
(nrows, ncols) is computed from the numeric feature count, with Python
floor division (len(num_feat) - 1) // 5 + 1. Rendering itself is the
external graphics collaborator. -/
def plot_eda (df : List Column) (target : String) (plot_type : String) : Except String (ℕ × ℕ) :=
  if df.any (fun c => c.name == target) then
    let df_x := df.filter (fun c => c.name != target)
    let num_feat := (get_cat_num_df df_x).1
    let nrows := (((num_feat.length : ℤ) - 1).fdiv 5 + 1).toNat
    let ncols := min num_feat.length 5
    Except.ok (nrows, ncols)
  else
    Except.error "column not found"

/-- get_cat_num_df as a state computation over the DataFrame: the code only
reads the frame, so the state is only read. -/
def get_cat_num_df_st : StateM (List Column) (List String × List String) := do
  let df ← get
  pure (get_cat_num_df df)

/-- get_null_df as a state computation over the DataFrame. -/
def get_null_df_st : StateM (List Column) (List NullRow) := do
  let df ← get
  pure (get_null_df df)

/-- get_outliers as a state computation over the DataFrame. -/
def get_outliers_st : StateM (List Column) (List OutlierRow) := do
  let df ← get
  pure (get_outliers df)

/-- Concrete numeric column with values [1, 2, 3, 4, 100], the worked
example of the spec. -/
def colA : Column :=
  { name := "a", dtype := .numeric,
    values := [.num 1, .num 2, .num 3, .num 4, .num 100] }

/-- Concrete object (categorical) column with two missing values. -/
def colB : Column :=
  { name := "b", dtype := .object,
    values := [.str "x", .na, .str "y", .na, .str "z"] }

/-- Concrete boolean-dtype column with a missing value: its dtype satisfies
neither the numeric-dtype test nor the object-dtype test. -/
def colC : Column :=
  { name := "c", dtype := .boolean,
    values := [.na, .num 0, .num 1, .num 1, .num 0] }

/-- Concrete constant-valued numeric column [5, 5, 5, 5]. -/
def colConst : Column :=
  { name := "k", dtype := .numeric, values := [.num 5, .num 5, .num 5, .num 5] }

/-- Concrete three-column DataFrame with five aligned rows. -/
def dfW : List Column := [colA, colB, colC]

/-- Concrete DataFrame without any missing value. -/
def dfNoNull : List Column := [colA]

/-- Concrete single-column DataFrame holding the worked example column. -/
def dfC2 : List Column := [colA]

lemma not_numeric_and_object {d : Dtype} :
    ¬(is_numeric_dtype d = true ∧ is_object_dtype d = true) := by
  cases d <;> simp [is_numeric_dtype, is_object_dtype]

lemma get_cat_num_df_eq_filter (df : List Column) :
    get_cat_num_df df =
      ((df.filter fun c => is_numeric_dtype c.dtype).map Column.name,
       (df.filter fun c => is_object_dtype c.dtype).map Column.name) := by
  induction df with
  | nil => rfl
  | cons c rest ih =>
    simp only [get_cat_num_df, ih, List.filter_cons]
    by_cases hn : is_numeric_dtype c.dtype = true <;>
      by_cases ho : is_object_dtype c.dtype = true <;>
        simp [hn, ho]

lemma countP_add_countP_le_length (l : List Column) (p q : Column → Bool)
    (h : ∀ a ∈ l, ¬(p a = true ∧ q a = true)) :
    l.countP p + l.countP q ≤ l.length := by
  induction l with
  | nil => simp
  | cons a l ih =>
    have ha := h a (List.mem_cons_self a l)
    have ih' := ih (fun b hb => h b (List.mem_cons_of_mem a hb))
    simp only [List.countP_cons, List.length_cons]
    by_cases hp : p a = true <;> by_cases hq : q a = true <;>
      simp [hp, hq] at ha ⊢ <;> omega

/-- C3: the two lists returned by get_cat_num_df are order-preserving
selections of the column names (sublists), they are disjoint, no name
appears twice across both, and their combined length is at most the number
of columns. -/
theorem classify_columns_partition (df : List Column)
    (hnodup : (df.map Column.name).Nodup) :
    (get_cat_num_df df).1.Sublist (df.map Column.name) ∧
    (get_cat_num_df df).2.Sublist (df.map Column.name) ∧
    List.Disjoint (get_cat_num_df df).1 (get_cat_num_df df).2 ∧
    ((get_cat_num_df df).1 ++ (get_cat_num_df df).2).Nodup ∧
    (get_cat_num_df df).1.length + (get_cat_num_df df).2.length ≤ df.length := by
  rw [get_cat_num_df_eq_filter]
  have hsub1 : ((df.filter fun c => is_numeric_dtype c.dtype).map Column.name).Sublist
      (df.map Column.name) := (List.filter_sublist df).map Column.name
  have hsub2 : ((df.filter fun c => is_object_dtype c.dtype).map Column.name).Sublist
      (df.map Column.name) := (List.filter_sublist df).map Column.name
  have hdisj : List.Disjoint ((df.filter fun c => is_numeric_dtype c.dtype).map Column.name)
      ((df.filter fun c => is_object_dtype c.dtype).map Column.name) := by
    intro a ha1 ha2
    rcases List.mem_map.1 ha1 with ⟨c1, hc1, rfl⟩
    rcases List.mem_map.1 ha2 with ⟨c2, hc2, hname⟩
    rcases List.mem_filter.1 hc1 with ⟨hc1mem, hc1num⟩
    rcases List.mem_filter.1 hc2 with ⟨hc2mem, hc2obj⟩
    have hceq : c2 = c1 := List.inj_on_of_nodup_map hnodup hc2mem hc1mem hname
    subst hceq
    exact not_numeric_and_object ⟨hc1num, hc2obj⟩
  refine ⟨hsub1, hsub2, hdisj, ?_, ?_⟩
  · exact (List.nodup_append).2 ⟨hsub1.nodup hnodup, hsub2.nodup hnodup, hdisj⟩
  · simp only [List.length_map, ← List.countP_eq_length_filter]
    exact countP_add_countP_le_length df _ _ (fun a _ => not_numeric_and_object)

/-- Witness for C3 at the concrete three-column DataFrame. -/
theorem classify_columns_partition_witness :
    (dfW.map Column.name).Nodup ∧
    ((get_cat_num_df dfW).1.Sublist (dfW.map Column.name) ∧
     (get_cat_num_df dfW).2.Sublist (dfW.map Column.name) ∧
     List.Disjoint (get_cat_num_df dfW).1 (get_cat_num_df dfW).2 ∧
     ((get_cat_num_df dfW).1 ++ (get_cat_num_df dfW).2).Nodup ∧
     (get_cat_num_df dfW).1.length + (get_cat_num_df dfW).2.length ≤ dfW.length) :=
  ⟨by decide, classify_columns_partition dfW (by decide)⟩

/-- C4: a table in which no column has any missing value yields an empty
null report. -/
theorem null_report_empty_of_no_missing (df : List Column)
    (h : ∀ c ∈ df, ∀ v ∈ c.values, isNA v = false) :
    get_null_df df = [] := by
  unfold get_null_df
  have hf : df.filter (fun c => c.values.any isNA) = [] := by
    rw [List.filter_eq_nil_iff]
    intro c hc
    simp only [List.any_eq_true, not_exists]
    intro v hv
    exact absurd hv.2 (by simp [h c hc v hv.1])
  rw [hf, List.map_nil]

/-- Witness for C4 at a concrete DataFrame without missing values. -/
theorem null_report_empty_of_no_missing_witness :
    (∀ c ∈ dfNoNull, ∀ v ∈ c.values, isNA v = false) ∧ get_null_df dfNoNull = [] :=
  ⟨by decide, null_report_empty_of_no_missing dfNoNull (by decide)⟩

/-- C7: when the target column name is absent from the table, plot_eda
fails with the column-not-found error instead of returning normally. -/
theorem plot_eda_missing_target_error (df : List Column) (target plot_type : String)
    (h : ∀ c ∈ df, c.name ≠ target) :
    plot_eda df target plot_type = Except.error "column not found" := by
  unfold plot_eda
  have ha : df.any (fun c => c.name == target) = false := by
    rw [List.any_eq_false]
    intro c hc
    simpa using h c hc
  rw [ha]
  simp

/-- Witness for C7 at a concrete DataFrame and absent target name. -/
theorem plot_eda_missing_target_error_witness :
    (∀ c ∈ dfW, c.name ≠ "zzz") ∧
    plot_eda dfW "zzz" "scatter" = Except.error "column not found" :=
  ⟨by decide, plot_eda_missing_target_error dfW "zzz" "scatter" (by decide)⟩

/-- C8: the three report computations, read as state computations over the
DataFrame, leave the DataFrame unchanged: the code only reads the frame and
builds fresh report structures. -/
theorem reports_do_not_mutate_table (df : List Column) :
    (get_cat_num_df_st.run df).2 = df ∧
    (get_null_df_st.run df).2 = df ∧
    (get_outliers_st.run df).2 = df :=
  ⟨rfl, rfl, rfl⟩

/-- C5: every row of the null report carries the percentage
count / total_rows * 100, which lies between 0 and 100 for a non-empty
table with aligned columns. -/
theorem null_report_percentage_bounds (df : List Column)
    (huniform : ∀ c ∈ df, c.values.length = numRows df)
    (hpos : 0 < numRows df) :
    ∀ row ∈ get_null_df df,
      row.pct = (row.totalNaN : ℚ) / (numRows df : ℚ) * 100 ∧
      0 ≤ row.pct ∧ row.pct ≤ 100 := by
  intro row hrow
  rcases List.mem_map.1 hrow with ⟨c, hcfilter, rfl⟩
  have hcmem : c ∈ df := (List.mem_filter.1 hcfilter).1
  have hcount : countNA c ≤ numRows df := by
    rw [← huniform c hcmem]
    exact List.countP_le_length isNA
  have hLpos : (0 : ℚ) < (numRows df : ℚ) := by exact_mod_cast hpos
  refine ⟨rfl, ?_, ?_⟩
  · have h0 : (0 : ℚ) ≤ (countNA c : ℚ) / (numRows df : ℚ) :=
      div_nonneg (Nat.cast_nonneg _) hLpos.le
    simpa [nullRow] using mul_nonneg h0 (by norm_num : (0 : ℚ) ≤ 100)
  · have h1 : (countNA c : ℚ) / (numRows df : ℚ) ≤ 1 := by
      rw [div_le_one hLpos]
      exact_mod_cast hcount
    have h2 := mul_le_mul_of_nonneg_right h1 (by norm_num : (0 : ℚ) ≤ 100)
    simpa [nullRow] using h2

/-- Witness for C5 at the concrete three-column DataFrame with five rows. -/
theorem null_report_percentage_bounds_witness :
    (∀ c ∈ dfW, c.values.length = numRows dfW) ∧ 0 < numRows dfW ∧
    (∀ row ∈ get_null_df dfW,
      row.pct = (row.totalNaN : ℚ) / (numRows dfW : ℚ) * 100 ∧
      0 ≤ row.pct ∧ row.pct ≤ 100) :=
  ⟨by decide, by decide, null_report_percentage_bounds dfW (by decide) (by decide)⟩

/-- C10: a column with a missing value is reported with type label
Numerical exactly when the numeric-dtype test holds and Categorical
otherwise; in particular a column of boolean or datetime dtype is labelled
Categorical in the null report although get_cat_num_df places its name in
neither list. -/
theorem null_report_type_label (df : List Column) (c : Column)
    (hmem : c ∈ df) (hna : c.values.any isNA = true) :
    nullRow df c ∈ get_null_df df ∧
    (nullRow df c).type = (if is_numeric_dtype c.dtype then "Numerical" else "Categorical") ∧
    (is_numeric_dtype c.dtype = false → (nullRow df c).type = "Categorical") ∧
    (is_numeric_dtype c.dtype = false → is_object_dtype c.dtype = false →
      (df.map Column.name).Nodup →
      c.name ∉ (get_cat_num_df df).1 ∧ c.name ∉ (get_cat_num_df df).2) := by
  refine ⟨?_, rfl, ?_, ?_⟩
  · exact List.mem_map_of_mem _ (List.mem_filter.2 ⟨hmem, hna⟩)
  · intro h
    simp [nullRow, h]
  · intro hnum hobj hnodup
    rw [get_cat_num_df_eq_filter]
    constructor
    · intro hmem1
      rcases List.mem_map.1 hmem1 with ⟨c1, hc1, hname⟩
      rcases List.mem_filter.1 hc1 with ⟨hc1mem, hc1num⟩
      have hceq : c1 = c := List.inj_on_of_nodup_map hnodup hc1mem hmem hname
      subst hceq
      rw [hnum] at hc1num
      exact absurd hc1num (by simp)
    · intro hmem2
      rcases List.mem_map.1 hmem2 with ⟨c2, hc2, hname⟩
      rcases List.mem_filter.1 hc2 with ⟨hc2mem, hc2obj⟩
      have hceq : c2 = c := List.inj_on_of_nodup_map hnodup hc2mem hmem hname
      subst hceq
      rw [hobj] at hc2obj
      exact absurd hc2obj (by simp)

/-- Witness for C10 at the boolean-dtype column with a missing value. -/
theorem null_report_type_label_witness :
    colC ∈ dfW ∧ colC.values.any isNA = true ∧
    (nullRow dfW colC ∈ get_null_df dfW ∧
     (nullRow dfW colC).type =
        (if is_numeric_dtype colC.dtype then "Numerical" else "Categorical") ∧
     (is_numeric_dtype colC.dtype = false → (nullRow dfW colC).type = "Categorical") ∧
     (is_numeric_dtype colC.dtype = false → is_object_dtype colC.dtype = false →
       (dfW.map Column.name).Nodup →
       colC.name ∉ (get_cat_num_df dfW).1 ∧ colC.name ∉ (get_cat_num_df dfW).2)) :=
  ⟨by decide, by decide, null_report_type_label dfW colC (by decide) (by decide)⟩

lemma natFloor_eq {a : ℚ} {n : ℕ} (h1 : (n : ℚ) ≤ a) (h2 : a < n + 1) : ⌊a⌋₊ = n :=
  (Nat.floor_eq_iff (le_trans (Nat.cast_nonneg n) h1)).2 ⟨h1, h2⟩

lemma sorted_getD_le {s : List ℚ} (hs : s.Sorted (· ≤ ·)) {i j : ℕ} (hij : i ≤ j)
    (hj : j < s.length) (d e : ℚ) : s.getD i d ≤ s.getD j e := by
  have hi : i < s.length := lt_of_le_of_lt hij hj
  have h1 : s.get ⟨i, hi⟩ ≤ s.get ⟨j, hj⟩ := hs.rel_get_of_le (Fin.mk_le_mk.2 hij)
  rw [List.getD_eq_get _ _ hi, List.getD_eq_get _ _ hj]
  exact h1

lemma getD_lo_le_hi {s : List ℚ} (hs : s.Sorted (· ≤ ·)) (i : ℕ) :
    s.getD i 0 ≤ s.getD (i + 1) (s.getD i 0) := by
  by_cases h : i + 1 < s.length
  · exact sorted_getD_le hs (Nat.le_succ i) h 0 _
  · rw [List.getD_eq_default _ _ (Nat.not_lt.1 h)]

lemma interpAt_ge_lo {s : List ℚ} (hs : s.Sorted (· ≤ ·)) {h : ℚ} (h0 : 0 ≤ h) :
    s.getD ⌊h⌋₊ 0 ≤ interpAt s h := by
  unfold interpAt
  have hfrac : 0 ≤ h - (⌊h⌋₊ : ℚ) := sub_nonneg.2 (Nat.floor_le h0)
  have hlohi := getD_lo_le_hi hs ⌊h⌋₊
  nlinarith [mul_nonneg hfrac (sub_nonneg.2 hlohi)]

lemma interpAt_le_hi {s : List ℚ} (hs : s.Sorted (· ≤ ·)) (h : ℚ) :
    interpAt s h ≤ s.getD (⌊h⌋₊ + 1) (s.getD ⌊h⌋₊ 0) := by
  unfold interpAt
  have hfrac1 : h - (⌊h⌋₊ : ℚ) ≤ 1 := by
    have := Nat.lt_floor_add_one h
    push_cast at this ⊢
    linarith
  have hlohi := getD_lo_le_hi hs ⌊h⌋₊
  nlinarith [mul_nonneg (by linarith : (0 : ℚ) ≤ 1 - (h - (⌊h⌋₊ : ℚ)))
    (sub_nonneg.2 hlohi)]

lemma interpAt_mono {s : List ℚ} (hs : s.Sorted (· ≤ ·)) {h1 h2 : ℚ}
    (h0 : 0 ≤ h1) (h12 : h1 ≤ h2) (hub : h2 ≤ ((s.length - 1 : ℕ) : ℚ))
    (hne : s ≠ []) : interpAt s h1 ≤ interpAt s h2 := by
  have hlen : 0 < s.length := List.length_pos.2 hne
  have hi2le : ⌊h2⌋₊ ≤ s.length - 1 := by
    calc ⌊h2⌋₊ ≤ ⌊((s.length - 1 : ℕ) : ℚ)⌋₊ := Nat.floor_le_floor hub
    _ = s.length - 1 := Nat.floor_natCast _
  have hi2lt : ⌊h2⌋₊ < s.length := lt_of_le_of_lt hi2le (Nat.sub_lt hlen one_pos)
  have hi12 : ⌊h1⌋₊ ≤ ⌊h2⌋₊ := Nat.floor_le_floor h12
  rcases eq_or_lt_of_le hi12 with heq | hlt
  · unfold interpAt
    rw [← heq]
    have hlohi := getD_lo_le_hi hs ⌊h1⌋₊
    have hmul := mul_le_mul_of_nonneg_right
      (by linarith : h1 - (⌊h1⌋₊ : ℚ) ≤ h2 - (⌊h1⌋₊ : ℚ)) (sub_nonneg.2 hlohi)
    linarith
  · have step1 : interpAt s h1 ≤ s.getD (⌊h1⌋₊ + 1) (s.getD ⌊h1⌋₊ 0) :=
      interpAt_le_hi hs h1
    have hi1succ_lt : ⌊h1⌋₊ + 1 < s.length :=
      lt_of_le_of_lt (Nat.succ_le_of_lt hlt) hi2lt
    have step2 : s.getD (⌊h1⌋₊ + 1) (s.getD ⌊h1⌋₊ 0) ≤ s.getD ⌊h2⌋₊ 0 :=
      sorted_getD_le hs (Nat.succ_le_of_lt hlt) hi2lt _ _
    have step3 : s.getD ⌊h2⌋₊ 0 ≤ interpAt s h2 :=
      interpAt_ge_lo hs (le_trans h0 h12)
    linarith

lemma percentile_mono (xs : List ℚ) {p q : ℚ} (hp : 0 ≤ p) (hpq : p ≤ q)
    (hq : q ≤ 100) : percentile xs p ≤ percentile xs q := by
  unfold percentile
  by_cases hxs : xs = []
  · simp [hxs]
  · rw [if_neg hxs, if_neg hxs]
    have hsorted : (xs.insertionSort (· ≤ ·)).Sorted (· ≤ ·) :=
      List.sorted_insertionSort _ xs
    have hslen : (xs.insertionSort (· ≤ ·)).length = xs.length := by
      simp
    have hsne : xs.insertionSort (· ≤ ·) ≠ [] := by
      intro hnil
      apply hxs
      rw [← List.length_eq_zero, ← hslen, hnil]
      rfl
    apply interpAt_mono hsorted
    · exact div_nonneg (mul_nonneg (Nat.cast_nonneg _) hp) (by norm_num)
    · gcongr
    · rw [hslen]
      calc ((xs.length - 1 : ℕ) : ℚ) * q / 100
          ≤ ((xs.length - 1 : ℕ) : ℚ) * 100 / 100 := by gcongr
        _ = ((xs.length - 1 : ℕ) : ℚ) := by ring
    · exact hsne

lemma percentile_const {xs : List ℚ} {a : ℚ} (hall : ∀ x ∈ xs, x = a)
    (hne : xs ≠ []) {p : ℚ} (hp : 0 ≤ p) (hp100 : p ≤ 100) :
    percentile xs p = a := by
  unfold percentile
  rw [if_neg hne]
  have hsall : ∀ x ∈ xs.insertionSort (· ≤ ·), x = a := fun x hx =>
    hall x (((List.perm_insertionSort _ xs).mem_iff).1 hx)
  have hslen : (xs.insertionSort (· ≤ ·)).length = xs.length := by simp
  have hlen : 0 < xs.length := List.length_pos.2 hne
  have h0 : (0 : ℚ) ≤ ((xs.length - 1 : ℕ) : ℚ) * p / 100 :=
    div_nonneg (mul_nonneg (Nat.cast_nonneg _) hp) (by norm_num)
  have hub : ((xs.length - 1 : ℕ) : ℚ) * p / 100 ≤ ((xs.length - 1 : ℕ) : ℚ) := by
    calc ((xs.length - 1 : ℕ) : ℚ) * p / 100
        ≤ ((xs.length - 1 : ℕ) : ℚ) * 100 / 100 := by gcongr
      _ = ((xs.length - 1 : ℕ) : ℚ) := by ring
  have hflt : ⌊((xs.length - 1 : ℕ) : ℚ) * p / 100⌋₊ < (xs.insertionSort (· ≤ ·)).length := by
    rw [hslen]
    calc ⌊((xs.length - 1 : ℕ) : ℚ) * p / 100⌋₊
        ≤ ⌊((xs.length - 1 : ℕ) : ℚ)⌋₊ := Nat.floor_le_floor hub
      _ = xs.length - 1 := Nat.floor_natCast _
      _ < xs.length := Nat.sub_lt hlen one_pos
  unfold interpAt
  have hlo : (xs.insertionSort (· ≤ ·)).getD ⌊((xs.length - 1 : ℕ) : ℚ) * p / 100⌋₊ 0 = a := by
    rw [List.getD_eq_get _ _ hflt]
    exact hsall _ (List.get_mem _ _ _)
  have hhi : (xs.insertionSort (· ≤ ·)).getD (⌊((xs.length - 1 : ℕ) : ℚ) * p / 100⌋₊ + 1)
      ((xs.insertionSort (· ≤ ·)).getD ⌊((xs.length - 1 : ℕ) : ℚ) * p / 100⌋₊ 0) = a := by
    by_cases hrange : ⌊((xs.length - 1 : ℕ) : ℚ) * p / 100⌋₊ + 1 < (xs.insertionSort (· ≤ ·)).length
    · rw [List.getD_eq_get _ _ hrange]
      exact hsall _ (List.get_mem _ _ _)
    · rw [List.getD_eq_default _ _ (Nat.not_lt.1 hrange)]
      exact hlo
  rw [hhi, hlo]
  ring

lemma numValues_all_const {c : Column} {a : ℚ}
    (hall : ∀ v ∈ c.values, v = Value.num a) : ∀ x ∈ numValues c, x = a := by
  intro x hx
  rcases List.mem_filterMap.1 hx with ⟨v, hv, hmatch⟩
  have hva := hall v hv
  subst hva
  simpa using hmatch.symm

lemma numValues_ne_nil {c : Column} {a : ℚ}
    (hall : ∀ v ∈ c.values, v = Value.num a) (hne : c.values ≠ []) :
    numValues c ≠ [] := by
  cases hcv : c.values with
  | nil => exact absurd hcv hne
  | cons v vs =>
    have hv : v = Value.num a := hall v (hcv ▸ List.mem_cons_self v vs)
    unfold numValues
    rw [hcv, List.filterMap_cons, hv]
    simp

lemma first_quartile_le_third_quartile (c : Column) :
    first_quartile c ≤ third_quartile c := by
  unfold first_quartile third_quartile
  exact percentile_mono _ (by norm_num) (by norm_num) (by norm_num)

lemma lowerFence_le_upperFence (c : Column) : lowerFence c ≤ upperFence c := by
  have h := first_quartile_le_third_quartile c
  unfold lowerFence upperFence cutoff iqr
  nlinarith

lemma countP_or_of_disjoint (l : List ℚ) (p q : ℚ → Bool)
    (h : ∀ a ∈ l, ¬(p a = true ∧ q a = true)) :
    l.countP (fun a => p a || q a) = l.countP p + l.countP q := by
  induction l with
  | nil => simp
  | cons a l ih =>
    have ha := h a (List.mem_cons_self a l)
    have ih' := ih (fun b hb => h b (List.mem_cons_of_mem a hb))
    simp only [List.countP_cons, ih']
    by_cases hp : p a = true <;> by_cases hq : q a = true <;>
      simp [hp, hq] at ha ⊢ <;> omega

/-- C9: for a clean numeric column the quartiles are ordered, so the IQR
and cutoff are nonnegative and the lower fence is at most the upper fence;
hence no value is both below the lower fence and above the upper one, and
the reported total counts exactly the values strictly outside the closed
fence interval, none twice. -/
theorem fences_ordered_and_total_exact (c : Column)
    (hnum : is_numeric_dtype c.dtype = true)
    (hclean : ∀ v ∈ c.values, isNA v = false)
    (hne : c.values ≠ []) :
    first_quartile c ≤ third_quartile c ∧ 0 ≤ iqr c ∧ 0 ≤ cutoff c ∧
    lowerFence c ≤ upperFence c ∧
    (∀ x : ℚ, ¬(x < lowerFence c ∧ upperFence c < x)) ∧
    totalOut c =
      (numValues c).countP
        (fun x => decide (x < lowerFence c) || decide (upperFence c < x)) := by
  have hq := first_quartile_le_third_quartile c
  have hiqr : 0 ≤ iqr c := by unfold iqr; linarith
  have hcut : 0 ≤ cutoff c := by
    unfold cutoff
    nlinarith
  have hfence := lowerFence_le_upperFence c
  refine ⟨hq, hiqr, hcut, hfence, ?_, ?_⟩
  · rintro x ⟨h1, h2⟩
    linarith
  · have hdisj : ∀ a ∈ numValues c,
        ¬(decide (a < lowerFence c) = true ∧ decide (upperFence c < a) = true) := by
      intro a ha hcontra
      have hcontra2 := hcontra
      simp only [decide_eq_true_eq] at hcontra2
      linarith [hcontra2.1, hcontra2.2]
    unfold totalOut lowerCount upperCount
    exact (countP_or_of_disjoint _ _ _ hdisj).symm

/-- Witness for C9 at the worked example column. -/
theorem fences_ordered_and_total_exact_witness :
    is_numeric_dtype colA.dtype = true ∧ (∀ v ∈ colA.values, isNA v = false) ∧
    colA.values ≠ [] ∧
    (first_quartile colA ≤ third_quartile colA ∧ 0 ≤ iqr colA ∧ 0 ≤ cutoff colA ∧
     lowerFence colA ≤ upperFence colA ∧
     (∀ x : ℚ, ¬(x < lowerFence colA ∧ upperFence colA < x)) ∧
     totalOut colA =
       (numValues colA).countP
         (fun x => decide (x < lowerFence colA) || decide (upperFence colA < x))) :=
  ⟨by decide, by decide, by decide,
   fences_ordered_and_total_exact colA (by decide) (by decide) (by decide)⟩

/-- C6: a numeric column whose values are all equal to a has IQR 0, both
fences equal to a, outlier total 0, and produces no report row. -/
theorem constant_column_no_outlier_row (c : Column) (a : ℚ)
    (hall : ∀ v ∈ c.values, v = Value.num a) (hne : c.values ≠ []) :
    iqr c = 0 ∧ lowerFence c = a ∧ upperFence c = a ∧ totalOut c = 0 ∧
    outlierRow c = none := by
  have hconstv := numValues_all_const hall
  have hnv := numValues_ne_nil hall hne
  have hq1 : first_quartile c = a := by
    unfold first_quartile
    exact percentile_const hconstv hnv (by norm_num) (by norm_num)
  have hq3 : third_quartile c = a := by
    unfold third_quartile
    exact percentile_const hconstv hnv (by norm_num) (by norm_num)
  have hiqr : iqr c = 0 := by unfold iqr; rw [hq1, hq3]; ring
  have hlf : lowerFence c = a := by
    unfold lowerFence cutoff
    rw [hq1, hiqr]
    ring
  have huf : upperFence c = a := by
    unfold upperFence cutoff
    rw [hq3, hiqr]
    ring
  have hlc : lowerCount c = 0 := by
    unfold lowerCount
    rw [List.countP_eq_zero]
    intro x hx
    rw [hconstv x hx, hlf]
    simp
  have huc : upperCount c = 0 := by
    unfold upperCount
    rw [List.countP_eq_zero]
    intro x hx
    rw [hconstv x hx, huf]
    simp
  have htot : totalOut c = 0 := by unfold totalOut; rw [hlc, huc]
  refine ⟨hiqr, hlf, huf, htot, ?_⟩
  unfold outlierRow
  rw [if_neg]
  intro hcontra
  exact hcontra.1 htot

/-- Witness for C6 at the constant column [5, 5, 5, 5]. -/
theorem constant_column_no_outlier_row_witness :
    (∀ v ∈ colConst.values, v = Value.num 5) ∧ colConst.values ≠ [] ∧
    (iqr colConst = 0 ∧ lowerFence colConst = 5 ∧ upperFence colConst = 5 ∧
     totalOut colConst = 0 ∧ outlierRow colConst = none) :=
  ⟨by decide, by decide, constant_column_no_outlier_row colConst 5 (by decide) (by decide)⟩

lemma outlierRow_feature {c : Column} {r : OutlierRow}
    (h : outlierRow c = some r) : r.feature = c.name := by
  unfold outlierRow at h
  by_cases hcond : totalOut c ≠ 0 ∧ upperFence c ≠ 0 ∧ lowerFence c ≠ 0
  · rw [if_pos hcond] at h
    cases h
    rfl
  · rw [if_neg hcond] at h
    cases h

lemma getCol_of_mem {df : List Column} (hnodup : (df.map Column.name).Nodup)
    {c : Column} (hc : c ∈ df) : getCol df c.name = some c := by
  unfold getCol
  induction df with
  | nil => cases hc
  | cons d rest ih =>
    have hnodup2 : ((d :: rest).map Column.name).Nodup := hnodup
    rw [List.map_cons, List.nodup_cons] at hnodup2
    by_cases hd : (d.name == c.name) = true
    · simp only [List.find?, hd]
      rcases List.mem_cons.1 hc with hceq | hcrest
      · rw [hceq]
      · exfalso
        apply hnodup2.1
        rw [beq_iff_eq] at hd
        rw [hd]
        exact List.mem_map_of_mem Column.name hcrest
    · have hd3 : (d.name == c.name) = false := by
        rwa [Bool.not_eq_true] at hd
      simp only [List.find?, hd3]
      rcases List.mem_cons.1 hc with hceq | hcrest
      · exfalso
        apply hd
        rw [hceq, beq_iff_eq]
      · exact ih hnodup2.2 hcrest

/-- C1: a report row for a numeric column is present in the outlier report
exactly when the strict out-of-fence count is positive and both fences are
nonzero; in particular a column one of whose fences is exactly 0 produces
no row even if out-of-fence values exist. -/
theorem outlier_row_emitted_iff (df : List Column) (c : Column)
    (hmem : c ∈ df) (hnum : is_numeric_dtype c.dtype = true)
    (hnodup : (df.map Column.name).Nodup)
    (hclean : ∀ v ∈ c.values, isNA v = false) (hne : c.values ≠ []) :
    (∃ r ∈ get_outliers df, r.feature = c.name) ↔
      (0 < lowerCount c + upperCount c ∧ upperFence c ≠ 0 ∧ lowerFence c ≠ 0) := by
  constructor
  · rintro ⟨r, hr, hrname⟩
    unfold get_outliers at hr
    rcases List.mem_filterMap.1 hr with ⟨colName, hcolName, hbind⟩
    rcases Option.bind_eq_some.1 hbind with ⟨c1, hfind, hrow⟩
    have hc1name : r.feature = c1.name := outlierRow_feature hrow
    have hc1mem : c1 ∈ df := List.mem_of_find?_eq_some hfind
    have hc1eq : c1 = c :=
      List.inj_on_of_nodup_map hnodup hc1mem hmem (by rw [← hc1name, hrname])
    subst hc1eq
    unfold outlierRow at hrow
    by_cases hcond : totalOut c1 ≠ 0 ∧ upperFence c1 ≠ 0 ∧ lowerFence c1 ≠ 0
    · refine ⟨?_, hcond.2.1, hcond.2.2⟩
      have h1 := hcond.1
      unfold totalOut at h1
      omega
    · rw [if_neg hcond] at hrow
      cases hrow
  · rintro ⟨htot, hup, hlow⟩
    have hcond : totalOut c ≠ 0 ∧ upperFence c ≠ 0 ∧ lowerFence c ≠ 0 :=
      ⟨by unfold totalOut; omega, hup, hlow⟩
    refine ⟨{ feature := c.name, totalOutliers := totalOut c,
              upperLimit := upperFence c, lowerLimit := lowerFence c }, ?_, rfl⟩
    unfold get_outliers
    apply List.mem_filterMap.2
    refine ⟨c.name, ?_, ?_⟩
    · rw [get_cat_num_df_eq_filter]
      exact List.mem_map_of_mem _ (List.mem_filter.2 ⟨hmem, hnum⟩)
    · rw [getCol_of_mem hnodup hmem]
      show outlierRow c = _
      unfold outlierRow
      rw [if_pos hcond]

/-- Witness for C1 at the worked example column inside the three-column
DataFrame. -/
theorem outlier_row_emitted_iff_witness :
    colA ∈ dfW ∧ is_numeric_dtype colA.dtype = true ∧
    (dfW.map Column.name).Nodup ∧ (∀ v ∈ colA.values, isNA v = false) ∧
    colA.values ≠ [] ∧
    ((∃ r ∈ get_outliers dfW, r.feature = colA.name) ↔
      (0 < lowerCount colA + upperCount colA ∧
       upperFence colA ≠ 0 ∧ lowerFence colA ≠ 0)) :=
  ⟨by decide, by decide, by decide, by decide, by decide,
   outlier_row_emitted_iff dfW colA (by decide) (by decide) (by decide)
     (by decide) (by decide)⟩

/-- C2: on the column [1, 2, 3, 4, 100] the linear-interpolation quartiles
are Q1 = 2 and Q3 = 4, so IQR = 2, cutoff = 3, lower fence = -1 and upper
fence = 7; exactly one value (100) lies outside the fences and the report
contains exactly the corresponding row. -/
theorem outlier_example_1_2_3_4_100 :
    first_quartile colA = 2 ∧ third_quartile colA = 4 ∧ iqr colA = 2 ∧
    cutoff colA = 3 ∧ lowerFence colA = -1 ∧ upperFence colA = 7 ∧
    totalOut colA = 1 ∧
    get_outliers dfC2 =
      [{ feature := "a", totalOutliers := 1, upperLimit := 7,
         lowerLimit := -1 }] := by
  have hnv : numValues colA = [1, 2, 3, 4, 100] := rfl
  have hs : List.insertionSort (· ≤ ·) [(1 : ℚ), 2, 3, 4, 100] = [1, 2, 3, 4, 100] := by
    norm_num [List.insertionSort, List.orderedInsert]
  have hq1 : first_quartile colA = 2 := by
    unfold first_quartile
    rw [hnv]
    unfold percentile
    rw [if_neg (by simp : ¬([(1 : ℚ), 2, 3, 4, 100] = []))]
    have hh : (((([(1 : ℚ), 2, 3, 4, 100]).length - 1 : ℕ)) : ℚ) * 25 / 100 = 1 := by
      norm_num
    rw [hs, hh]
    unfold interpAt
    rw [Nat.floor_one]
    norm_num [show (([(1 : ℚ), 2, 3, 4, 100]).getD 1 0) = 2 from rfl,
      show (([(1 : ℚ), 2, 3, 4, 100]).getD (1 + 1) (2 : ℚ)) = 3 from rfl]
  have hq3 : third_quartile colA = 4 := by
    unfold third_quartile
    rw [hnv]
    unfold percentile
    rw [if_neg (by simp : ¬([(1 : ℚ), 2, 3, 4, 100] = []))]
    have hh : (((([(1 : ℚ), 2, 3, 4, 100]).length - 1 : ℕ)) : ℚ) * 75 / 100 = 3 := by
      norm_num
    have hf3 : ⌊(3 : ℚ)⌋₊ = 3 := natFloor_eq (by norm_num) (by norm_num)
    rw [hs, hh]
    unfold interpAt
    rw [hf3]
    norm_num [show (([(1 : ℚ), 2, 3, 4, 100]).getD 3 0) = 4 from rfl,
      show (([(1 : ℚ), 2, 3, 4, 100]).getD (3 + 1) (4 : ℚ)) = 100 from rfl]
  have hiqr : iqr colA = 2 := by
    unfold iqr
    rw [hq1, hq3]
    norm_num
  have hcut : cutoff colA = 3 := by
    unfold cutoff
    rw [hiqr]
    norm_num
  have hlf : lowerFence colA = -1 := by
    unfold lowerFence
    rw [hq1, hcut]
    norm_num
  have huf : upperFence colA = 7 := by
    unfold upperFence
    rw [hq3, hcut]
    norm_num
  have hlc : lowerCount colA = 0 := by
    unfold lowerCount
    simp only [hlf, hnv]
    decide
  have huc : upperCount colA = 1 := by
    unfold upperCount
    simp only [huf, hnv]
    decide
  have htot : totalOut colA = 1 := by
    unfold totalOut
    rw [hlc, huc]
  have hrow : outlierRow colA =
      some { feature := "a", totalOutliers := 1, upperLimit := 7,
             lowerLimit := -1 } := by
    unfold outlierRow
    rw [if_pos ⟨by rw [htot]; omega, by rw [huf]; norm_num, by rw [hlf]; norm_num⟩]
    rw [htot, huf, hlf]
    rfl
  have hget : getCol dfC2 "a" = some colA := rfl
  have hcat : (get_cat_num_df dfC2).1 = ["a"] := rfl
  have hout : get_outliers dfC2 =
      [{ feature := "a", totalOutliers := 1, upperLimit := 7,
         lowerLimit := -1 }] := by
    unfold get_outliers
    rw [hcat]
    simp [List.filterMap_cons, hget, Option.some_bind, hrow]
  exact ⟨hq1, hq3, hiqr, hcut, hlf, huf, htot, hout⟩

end EDA
